import Mathlib

/-!
Verification development for the ancestry-recording-experiments repository.

The development shallowly embeds the three crates whose sources are given:

* `Prototype` — the batch simplifier of `ancestry-prototype/src/simplify.rs`,
  together with the data model (`Segment`, `AncestryRecord`, `EdgeRecord`,
  `Ancestry`) used by it.  The data-model structs live in the crate root,
  which is not among the provided sources; their fields are reconstructed
  from every use site in `simplify.rs` and from the specification's §3.
* `Inline` — the inline variant: the ancestry overlapper of
  `ancestry-inline-simplification/src/ancestry_overlapper.rs` and the
  `Population` of `ancestry-inline-simplification/src/population.rs`.
* `TskitEv` — the tskit-backed implementation of the simulator interface
  in `tskit-evolution/src/lib.rs`; the external tskit table operations are
  abstracted as an explicit record of operations.

Machine integers (`SignedInteger` = i32, `LargeSignedInteger` = i64) are
modelled as `Int`; no arithmetic in the embedded code paths approaches the
i32/i64 ranges.  Rust panics (`panic!`, `assert!`, out-of-bounds indexing,
`Option::unwrap` of `None`) are modelled as `Except.error` carrying a
`PanicReason`; the crates under embedding define no structured error type
for these paths, so a `PanicReason` always denotes a process abort.
-/

/-- Reasons for a modelled Rust panic (process abort).  Each constructor
corresponds to one panic site or panic kind of the embedded sources. -/
inductive PanicReason where
  /-- an `assert!` / `assert_eq!` macro failed -/
  | assertionFailed
  /-- the explicit `panic!("duplicate samples")` in `SimplificationInternalState::new` -/
  | duplicateSamples
  /-- the explicit `panic!("input data must be sorted by birth time from past to present")` -/
  | notSortedByBirthTime
  /-- slice / `Vec` indexing out of bounds -/
  | indexOutOfBounds
  /-- `Vec::insert` called with index `usize::MAX` (no insertion point found) -/
  | insertionIndexOverflow
  /-- `Option::unwrap` called on `None` -/
  | unwrapOnNone
  /-- artefact of the embedding: iteration fuel exhausted (the sources loop
      without a structural bound; theorems never rely on this constructor) -/
  | outOfFuel
deriving DecidableEq

namespace Prototype

/-- Modelled from the spec: §3 "Segment: `{ left: P, right: P, node: N }`".
The struct itself lives in the crate root of `ancestry-prototype`, which is
not among the provided sources; field names and the constructor argument
order `(node, left, right)` are taken from every use in `simplify.rs`
(e.g. `Segment::new(idmap[u], 0, ancestry.genome_length)` and the literal
`Segment { node, left, right }`). -/
structure Segment where
  node : Int
  left : Int
  right : Int
deriving DecidableEq

/-- Modelled from the spec: §3 "AncestryRecord (per node)".  Reconstructed
from the uses `ancestry.ancestry[u].ancestry` and `j.node` in `simplify.rs`:
a per-node record holding the node id and its list of ancestry segments. -/
structure AncestryRecord where
  node : Int
  ancestry : List Segment
deriving DecidableEq

/-- Modelled from the spec: §3 "EdgeRecord (batch variant):
`{ node: N, birth_time: T, descendants: list<Segment> }`".  Field names from
the uses `a.node`, `a.birth_time`, `record.descendants` in `simplify.rs`. -/
structure EdgeRecord where
  node : Int
  birth_time : Int
  descendants : List Segment
deriving DecidableEq

/-- Modelled from the spec: the `Ancestry` container of the batch crate,
reconstructed from the uses `ancestry.genome_length`, `ancestry.edges`,
`ancestry.ancestry` in `simplify.rs`.  `edges` and `ancestry` are parallel
vectors indexed by node id. -/
structure Ancestry where
  genome_length : Int
  edges : List EdgeRecord
  ancestry : List AncestryRecord
deriving DecidableEq

/-- State carried while processing one edge record in the main loop of
`simplify` (`simplify.rs` lines 166–233): the segment queue, the ancestry
rows, the record's rebuilt `descendants`, the per-record `output_node`, the
global `idmap` and `next_output_node_id`. -/
structure SweepState where
  queue : List Segment
  rows : List AncestryRecord
  descendants : List Segment
  output_node : Int
  idmap : List Int
  next_output_node_id : Int
deriving DecidableEq

/-- Embeds the sample-marking loop of `SimplificationInternalState::new`
(`simplify.rs` lines 25–33): each sample index is asserted nonnegative and
in range, duplicate samples panic, and the flag vector is updated. -/
def markLoop : List Int → List Bool → Except PanicReason (List Bool)
  | [], flags => .ok flags
  | s :: rest, flags =>
    if s < 0 then .error .assertionFailed
    else if flags.length ≤ s.toNat then .error .assertionFailed
    else if flags.getD s.toNat false then .error .duplicateSamples
    else markLoop rest (flags.set s.toNat true)

/-- Runs `markLoop` on an all-false flag vector of the given length, as
`SimplificationInternalState::new` does (`is_sample = vec![false; len]`). -/
def markSamples (n : Nat) (samples : List Int) : Except PanicReason (List Bool) :=
  markLoop samples (List.replicate n false)

/-- State threaded through the reverse edge walk of
`SimplificationInternalState::new`: ancestry rows, `idmap`,
`next_output_node_id`, and the last seen birth time.  The Rust code seeds
the last birth time with `i64::MAX`; the embedding uses `none` for the
not-yet-seen state, which is equivalent for all representable times. -/
abbrev InitSt := List AncestryRecord × List Int × Int × Option Int

/-- Embeds the body of the reverse edge walk in
`SimplificationInternalState::new` (`simplify.rs` lines 36–59): validate the
birth-time order on demand, clear the node's pre-existing ancestry, and for
samples assign the next output id and seed the unit ancestry segment. -/
def initStep (L : Int) (flags : List Bool) (a : EdgeRecord) (st : InitSt) :
    Except PanicReason InitSt :=
  let (rows, idmap, next, last) := st
  if (match last with | some t => decide (t < a.birth_time) | none => false) then
    .error .notSortedByBirthTime
  else if a.node < 0 then .error .indexOutOfBounds
  else
    let u := a.node.toNat
    match rows[u]?, flags[u]? with
    | some row, some issample =>
      if issample then
        .ok (rows.set u { row with ancestry := [Segment.mk next 0 L] },
             idmap.set u next, next + 1, some a.birth_time)
      else
        .ok (rows.set u { row with ancestry := [] }, idmap, next, some a.birth_time)
    | _, _ => .error .indexOutOfBounds

/-- Embeds `for a in ancestry.edges.iter_mut().rev()` of
`SimplificationInternalState::new`: the records are visited from the last
one to the first one. -/
def initLoop (L : Int) (flags : List Bool) : List EdgeRecord → InitSt →
    Except PanicReason InitSt
  | [], st => .ok st
  | a :: rest, st => do
    let st1 ← initLoop L flags rest st
    initStep L flags a st1

/-- Embeds the overlap-gathering loop of `simplify` (`simplify.rs` lines
168–178): for every descendant transmission `e` and every segment `x` of
the referenced child's current ancestry, if the intervals intersect
(strictly on both sides) push the clipped segment onto the queue. -/
def gatherQueue (rows : List AncestryRecord) (descendants : List Segment) :
    Except PanicReason (List Segment) :=
  descendants.foldlM (fun q e =>
    if e.node < 0 then .error .indexOutOfBounds
    else
      match rows[e.node.toNat]? with
      | none => .error .indexOutOfBounds
      | some row =>
        .ok (row.ancestry.foldl (fun q2 x =>
          if e.left < x.right ∧ x.left < e.right then
            q2 ++ [Segment.mk x.node (max x.left e.left) (min x.right e.right)]
          else q2) q)) []

/-- Embeds the inner `while` of the sweep (`simplify.rs` lines 189–196):
while the queue is nonempty and its FIRST element's `left` equals `l`, pop
the LAST element (`Vec::pop`), push it onto `overlaps`, and lower `r` to its
`right`.  The fuel is instantiated with the queue length by the caller. -/
def drainQueue (fuel : Nat) (l : Int) (q ov : List Segment) (r : Int) :
    List Segment × List Segment × Int :=
  match fuel, q with
  | 0, _ => (q, ov, r)
  | _ + 1, [] => ([], ov, r)
  | fuel + 1, x :: xs =>
    if x.left = l then
      let y := (x :: xs).getLast (by simp)
      drainQueue fuel l (x :: xs).dropLast (ov ++ [y]) (min r y.right)
    else (x :: xs, ov, r)

/-- Bool version of the descending-by-`left` check
`segments.windows(2).all(|w| w[0].left >= w[1].left)` from
`SegmentQueue::enqueue`. -/
def sortedByLeftDesc : List Segment → Bool
  | a :: b :: t => decide (b.left ≤ a.left) && sortedByLeftDesc (b :: t)
  | _ => true

/-- Embeds `SegmentQueue::enqueue` (`simplify.rs` lines 116–132): scan the
queue from the back for the first element with strictly larger `left`; if
found, insert before it; if no such element exists the Rust code calls
`Vec::insert` with `usize::MAX`, which panics.  The trailing sorted assert
is also modelled. -/
def enqueue (segs : List Segment) (s : Segment) : Except PanicReason (List Segment) :=
  if segs.isEmpty then .ok [s]
  else
    match segs.reverse.findIdx? (fun v => decide (s.left < v.left)) with
    | none => .error .insertionIndexOverflow
    | some i =>
      let segs1 := segs.insertIdx (segs.length - i) s
      if sortedByLeftDesc segs1 then .ok segs1 else .error .assertionFailed

/-- Embeds `ancestry_data[record.node as usize].ancestry.push(alpha)`,
with the indexing panic of a bad record node. -/
def pushAncestry (rows : List AncestryRecord) (node : Int) (alpha : Segment) :
    Except PanicReason (List AncestryRecord) :=
  if node < 0 then .error .indexOutOfBounds
  else
    match rows[node.toNat]? with
    | none => .error .indexOutOfBounds
    | some row => .ok (rows.set node.toNat { row with ancestry := row.ancestry ++ [alpha] })

/-- Embeds the body of `for o in &mut overlaps` in the coalescent branch of
`simplify` (`simplify.rs` lines 223–229): push the edge `(o.node, l, r)`
onto the record's descendants and, when the overlap extends past `r`,
re-enqueue its remainder. -/
def emitEdges (l r : Int) (dq : List Segment × List Segment) (o : Segment) :
    Except PanicReason (List Segment × List Segment) := do
  let d1 := dq.1 ++ [Segment.mk o.node l r]
  if r < o.right then
    let q3 ← enqueue dq.2 { o with left := r }
    .ok (d1, q3)
  else .ok (d1, dq.2)

/-- Embeds one iteration of the outer sweep `while` of `simplify`
(`simplify.rs` lines 184–232): compute `l` from the queue head, drain with
`drainQueue`, cap `r` by the remaining queue's last `left`, then either the
unary branch (lines 204–215) or the coalescent branch (lines 216–231). -/
def sweepIterBody (L : Int) (recNode : Int) (st : SweepState) :
    Except PanicReason SweepState :=
  match st.queue with
  | [] => .ok st
  | q0 :: qrest =>
    let l := q0.left
    let (q1, overlaps, r1) := drainQueue (q0 :: qrest).length l (q0 :: qrest) [] L
    let r2 := match q1.getLast? with
      | some x => min r1 x.left
      | none => r1
    match overlaps with
    | [] => .error .assertionFailed
    | x :: ovrest =>
      if ovrest.isEmpty then
        match q1.getLast? with
        | some seg => do
          let alpha := Segment.mk x.node seg.left x.right
          let q2 ← enqueue q1 { x with left := seg.left }
          let rows2 ← pushAncestry st.rows recNode alpha
          .ok { st with queue := q2, rows := rows2 }
        | none => do
          let rows2 ← pushAncestry st.rows recNode x
          .ok { st with queue := q1, rows := rows2 }
      else do
        let (outNode, idmap1, next1) ←
          (if st.output_node = -1 then
            if recNode < 0 ∨ st.idmap.length ≤ recNode.toNat then
              .error .indexOutOfBounds
            else
              .ok (st.next_output_node_id,
                   st.idmap.set recNode.toNat st.next_output_node_id,
                   st.next_output_node_id + 1)
          else .ok (st.output_node, st.idmap, st.next_output_node_id) :
            Except PanicReason (Int × List Int × Int))
        let alpha := Segment.mk outNode l r2
        let (desc1, q2) ← (x :: ovrest).foldlM (emitEdges l r2) (st.descendants, q1)
        let rows2 ← pushAncestry st.rows recNode alpha
        .ok { queue := q2, rows := rows2, descendants := desc1,
              output_node := outNode, idmap := idmap1, next_output_node_id := next1 }

/-- Embeds the outer `while !state.queue.segments.is_empty()` of `simplify`.
The source loop has no structural bound, so the embedding takes fuel; the
caller passes enough for every terminating execution. -/
def sweepLoop (fuel : Nat) (L : Int) (recNode : Int) (st : SweepState) :
    Except PanicReason SweepState :=
  match fuel with
  | 0 => if st.queue.isEmpty then .ok st else .error .outOfFuel
  | fuel + 1 =>
    if st.queue.isEmpty then .ok st
    else do
      let st1 ← sweepIterBody L recNode st
      sweepLoop fuel L recNode st1

/-- Embeds the processing of one edge record in the main loop of `simplify`:
gather the queue, clear `record.descendants`, reset `output_node` to `-1`,
and run the sweep. -/
def processRecord (L : Int) (rec : EdgeRecord) (rows : List AncestryRecord)
    (idmap : List Int) (next : Int) :
    Except PanicReason (EdgeRecord × List AncestryRecord × List Int × Int) := do
  let q ← gatherQueue rows rec.descendants
  let st ← sweepLoop (q.length + 2) L rec.node
    { queue := q, rows := rows, descendants := [], output_node := -1,
      idmap := idmap, next_output_node_id := next }
  .ok ({ rec with descendants := st.descendants }, st.rows, st.idmap,
       st.next_output_node_id)

/-- Embeds `for record in edges.iter_mut().rev()` of `simplify`: records are
processed from the most recent (last) to the most ancient (first), each
record's `descendants` being rebuilt in place. -/
def mainLoop (L : Int) : List EdgeRecord → List AncestryRecord → List Int → Int →
    Except PanicReason (List EdgeRecord × List AncestryRecord × List Int × Int)
  | [], rows, idmap, next => .ok ([], rows, idmap, next)
  | rec :: rest, rows, idmap, next => do
    let (rest1, rows1, idmap1, next1) ← mainLoop L rest rows idmap next
    let (rec1, rows2, idmap2, next2) ← processRecord L rec rows1 idmap1 next1
    .ok (rec1 :: rest1, rows2, idmap2, next2)

/-- Embeds the per-entry node-id remapping of `simplify` (`simplify.rs`
lines 237–242): assigned entries become `|old − next| − 1` with a
nonnegativity assert; unassigned entries are left untouched. -/
def remapEntry (next v : Int) : Except PanicReason Int :=
  if 0 ≤ v then
    let w := ((v - next).natAbs : Int) - 1
    if 0 ≤ w then .ok w else .error .assertionFailed
  else .ok v

/-- Maps `remapEntry` over the whole idmap, as the remap `for` loop does. -/
def remapIdmap (next : Int) (idmap : List Int) : Except PanicReason (List Int) :=
  idmap.mapM (remapEntry next)

/-- Embeds the zip loop of `simplify` (`simplify.rs` lines 244–248): walk
the edge records and ancestry rows in parallel, assert their node ids agree,
and rewrite both through the remapped idmap. -/
def remapNodesLoop (idmap : List Int) : List EdgeRecord → List AncestryRecord →
    Except PanicReason (List EdgeRecord × List AncestryRecord)
  | [], rows => .ok ([], rows)
  | recs, [] => .ok (recs, [])
  | rec :: recs, row :: rows =>
    if rec.node ≠ row.node then .error .assertionFailed
    else if rec.node < 0 then .error .indexOutOfBounds
    else
      match idmap[rec.node.toNat]?, idmap[row.node.toNat]? with
      | some a, some b => do
        let (recs1, rows1) ← remapNodesLoop idmap recs rows
        .ok ({ rec with node := a } :: recs1, { row with node := b } :: rows1)
      | _, _ => .error .indexOutOfBounds

/-- Embeds `pub fn simplify` of `ancestry-prototype/src/simplify.rs` end to
end: the two entry asserts, state setup (sample marking and the reverse
birth-time walk), the main sweep over the records, id remapping, the zip
rewrite, and the final `retain` of records with mapped ids.
`validate_post_simplification` is not among the provided sources; modelled
from the spec: §7 says invariant surfacing is "debug-mode best-effort", so
it is modelled as a release-mode no-op here. -/
def simplify (samples : List Int) (anc : Ancestry) :
    Except PanicReason (List Int × Ancestry) := do
  if samples.length ≤ 1 then .error .assertionFailed
  else if anc.edges.length ≠ anc.ancestry.length then .error .assertionFailed
  else
    let flags ← markSamples anc.ancestry.length samples
    let (rows0, idmap0, next0, _) ← initLoop anc.genome_length flags anc.edges
      (anc.ancestry, List.replicate anc.ancestry.length (-1 : Int), 0, none)
    let (edges1, rows1, idmap1, next1) ← mainLoop anc.genome_length anc.edges rows0 idmap0 next0
    let idmap2 ← remapIdmap next1 idmap1
    let (edges2, rows2) ← remapNodesLoop idmap2 edges1 rows1
    .ok (idmap2,
         { genome_length := anc.genome_length,
           edges := edges2.filter (fun r => decide (r.node ≠ -1)),
           ancestry := rows2.filter (fun r => decide (r.node ≠ -1)) })

/-- Bool check that a list of ancestry segments is sorted by increasing
`left` with pairwise disjoint half-open intervals: each segment must end at
or before the next one starts. -/
def sortedByLeftAndDisjoint : List Segment → Bool
  | a :: b :: t => decide (a.right ≤ b.left) && sortedByLeftAndDisjoint (b :: t)
  | _ => true

/-- Bool check that edge records are sorted by birth time from past to
present (non-strictly ascending), the precondition of the batch driver. -/
def edgesSortedByTime : List EdgeRecord → Bool
  | a :: b :: t => decide (a.birth_time ≤ b.birth_time) && edgesSortedByTime (b :: t)
  | _ => true

/-- Concrete instance of the repository's own `feb_11_example` test fixture
(`simplify.rs` lines 316–350): genome length 100, crossovers at 50 and 60,
six nodes with the recorded transmissions. -/
def feb11 : Ancestry :=
  { genome_length := 100
  , edges :=
    [ ⟨0, 0, [⟨2, 0, 50⟩]⟩
    , ⟨1, 0, [⟨2, 0, 50⟩, ⟨3, 0, 100⟩]⟩
    , ⟨2, 1, [⟨5, 0, 60⟩]⟩
    , ⟨3, 1, [⟨4, 0, 100⟩, ⟨5, 60, 100⟩]⟩
    , ⟨4, 2, []⟩
    , ⟨5, 2, []⟩ ]
  , ancestry := [⟨0, []⟩, ⟨1, []⟩, ⟨2, []⟩, ⟨3, []⟩, ⟨4, []⟩, ⟨5, []⟩] }

/-- Input exhibiting an internal sample: node 0 (birth time 0) is a sample
and also the parent of sample node 1 (birth time 1) over the whole genome
`[0, 10)`.  Edge records are sorted past-to-present and the samples are
valid and distinct, so the batch driver's stated preconditions all hold. -/
def internalSampleAncestry : Ancestry :=
  { genome_length := 10
  , edges := [⟨0, 0, [⟨1, 0, 10⟩]⟩, ⟨1, 1, []⟩]
  , ancestry := [⟨0, []⟩, ⟨1, []⟩] }

/-- Input on which the remapped output ids are not in ascending-time order:
node 0 (time 0) is an isolated sample, node 1 (time 5) is a non-sample
parent whose two children, the samples 2 and 3 (time 6), coalesce over the
whole genome. -/
def oldSampleAncestry : Ancestry :=
  { genome_length := 10
  , edges := [⟨0, 0, []⟩, ⟨1, 5, [⟨2, 0, 10⟩, ⟨3, 0, 10⟩]⟩, ⟨2, 6, []⟩, ⟨3, 6, []⟩]
  , ancestry := [⟨0, []⟩, ⟨1, []⟩, ⟨2, []⟩, ⟨3, []⟩] }

/-- Input whose edge records are not sorted by birth time from past to
present (times 3 then 1). -/
def unsortedAncestry : Ancestry :=
  { genome_length := 10
  , edges := [⟨0, 3, []⟩, ⟨1, 1, []⟩]
  , ancestry := [⟨0, []⟩, ⟨1, []⟩] }

end Prototype

namespace Inline

/-- Value of `i64::MAX` (`LargeSignedInteger::MAX` in the sources). -/
def LargeSignedIntegerMAX : Int := 9223372036854775807

/-- Value of `i32::MAX` (`SignedInteger::MAX` in the sources). -/
def SignedIntegerMAX : Int := 2147483647

/-- Modelled from the spec: the `Individual` node handle of
`ancestry-inline-simplification` (its defining module `individual.rs` is not
among the provided sources).  For the overlapper only its identity matters;
the two constructor arguments `Individual::new(index, birth_time)` are kept
as fields. -/
structure Individual where
  index : Int
  birth_time : Int
deriving DecidableEq

/-- Embeds `Overlap` of `ancestry_overlapper.rs`: a half-open interval
tagged with the child whose transmission produced it and the individual the
child's ancestry currently maps to.  `Overlap::new` asserts `left < right`;
every overlap built in this development satisfies that invariant. -/
structure Overlap where
  left : Int
  right : Int
  child : Individual
  mapped_individual : Individual
deriving DecidableEq

/-- The sentinel overlap pushed by `AncestryOverlapper::new`
(`ancestry_overlapper.rs` lines 47–55): interval
`[i64::MAX − 1, i64::MAX)` with dummy individuals. -/
def sentinelOverlap : Overlap :=
  ⟨LargeSignedIntegerMAX - 1, LargeSignedIntegerMAX,
   ⟨SignedIntegerMAX, LargeSignedIntegerMAX⟩,
   ⟨SignedIntegerMAX, LargeSignedIntegerMAX⟩⟩

/-- Stable insertion of an overlap into a list sorted by `left`: the
element is placed before the first entry whose `left` is not smaller, so
earlier elements win ties. -/
def insertByLeft (s : Overlap) : List Overlap → List Overlap
  | [] => [s]
  | x :: xs => if x.left < s.left then x :: insertByLeft s xs else s :: x :: xs

/-- Stable sort by `left`, matching `segments.sort()` on a `Vec<Overlap>`
whose `Ord` compares only `left` (`ancestry_overlapper.rs` lines 138–142);
Rust's `Vec::sort` is stable, and any stable sort by `left` computes the
same list, so an insertion sort stands in for it. -/
def sortByLeftStable : List Overlap → List Overlap
  | [] => []
  | x :: xs => insertByLeft x (sortByLeftStable xs)

/-- Embeds the iterator state of `AncestryOverlapper`: the sorted segment
vector with its sentinel, the shared `overlaps` vector, the cursor `j`, the
original input length `n`, and the running `right` coordinate. -/
structure AncestryOverlapper where
  segments : List Overlap
  overlaps : List Overlap
  j : Nat
  n : Nat
  right : Int
deriving DecidableEq

/-- Embeds `AncestryOverlapper::new` (`ancestry_overlapper.rs` lines
41–66): sort the input by `left`, append the sentinel, set `n` to the input
length and `right` to the first segment's `left`.  The post-sort
`assert!(sorted)` always holds and is recorded by `new_sorted` below. -/
def AncestryOverlapper.new (input : List Overlap) : AncestryOverlapper :=
  let segs := sortByLeftStable input ++ [sentinelOverlap]
  { segments := segs, overlaps := [], j := 0, n := input.length,
    right := (segs.headD sentinelOverlap).left }

/-- Embeds the `while self.j < self.n && self.segments[self.j].left == left`
push loop of `AncestryOverlapper::next`.  The fuel is instantiated with
`n − j` by the caller, which bounds the loop exactly. -/
def pushWhile (segs : List Overlap) (n : Nat) (left : Int) :
    Nat → List Overlap → Nat → List Overlap × Nat
  | 0, ov, j => (ov, j)
  | fuel + 1, ov, j =>
    if j < n ∧ (segs.getD j sentinelOverlap).left = left then
      pushWhile segs n left fuel (ov ++ [segs.getD j sentinelOverlap]) (j + 1)
    else (ov, j)

/-- Embeds `AncestryOverlapper::next` (`ancestry_overlapper.rs` lines
76–114).  In the main branch (`j < n`) the candidate `left` is the previous
`right`, stale overlaps are retained away, a jump to `segments[j].left`
happens when the active set empties, segments with matching `left` are
pushed, and the new `right` is the minimum of the active rights and — as
written in the source — the *right* coordinate of the next unconsumed
segment (`self.segments[self.j + 1].right`).  The tail branch flushes the
remaining active set once `j` reaches `n`.  Rust's `self.j -= 1` on a
`usize` is modelled by truncated `Nat` subtraction; the subtraction is
reachable only with `j ≥ 1`. -/
def AncestryOverlapper.next (st : AncestryOverlapper) :
    Option ((Int × Int × List Overlap) × AncestryOverlapper) :=
  if st.j < st.n then
    let left0 := st.right
    let ov1 := st.overlaps.filter (fun x => decide (left0 < x.right))
    let left := if ov1.isEmpty then (st.segments.getD st.j sentinelOverlap).left else left0
    let (ov2, j2) := pushWhile st.segments st.n left (st.n - st.j) ov1 st.j
    let j3 := j2 - 1
    let r1 := ov2.foldl (fun a b => min a b.right) LargeSignedIntegerMAX
    let r2 := min r1 (st.segments.getD (j3 + 1) sentinelOverlap).right
    some ((left, r2, ov2), { st with overlaps := ov2, j := j3 + 1, right := r2 })
  else
    if st.overlaps.isEmpty then none
    else
      let left := st.right
      let ov1 := st.overlaps.filter (fun x => decide (left < x.right))
      if ov1.isEmpty then none
      else
        let r := ov1.foldl (fun a b => min a b.right) LargeSignedIntegerMAX
        some ((left, r, ov1), { st with overlaps := ov1, right := r })

/-- Collects the emissions of the overlapper iterator, up to the given
fuel; the source iterator has no structural bound (and, as proved below,
genuinely fails to terminate on some inputs). -/
def emitAll (fuel : Nat) (st : AncestryOverlapper) : List (Int × Int × List Overlap) :=
  match fuel with
  | 0 => []
  | fuel + 1 =>
    match st.next with
    | none => []
    | some (e, st1) => e :: emitAll fuel st1

/-- Bool check that two half-open intervals are disjoint. -/
def disjointIntervals (a b : Int × Int) : Bool :=
  decide (a.2 ≤ b.1) || decide (b.2 ≤ a.1)

/-- The input of the repository's own `test_single_overlap`
(`ancestry_overlapper.rs` lines 172–200): child 1 = `Individual::new(1, 1)`
contributes `[0, 5)`, child 2 = `Individual::new(2, 1)` contributes
`[1, 6)`. -/
def singleOverlapInput : List Overlap :=
  [⟨0, 5, ⟨1, 1⟩, ⟨1, 1⟩⟩, ⟨1, 6, ⟨2, 1⟩, ⟨2, 1⟩⟩]

/-- An input on which the overlapper never terminates: `[0, 10)` and
`[2, 3)`. -/
def loopInput : List Overlap :=
  [⟨0, 10, ⟨1, 1⟩, ⟨1, 1⟩⟩, ⟨2, 3, ⟨2, 1⟩, ⟨2, 1⟩⟩]

end Inline

namespace Inline

/-- Embeds `InlineAncestryError` with the variants visible in the provided
sources (`population.rs`): `InvalidGenomeLength { l }` and the tskit
conversion error. -/
inductive InlineAncestryError where
  | InvalidGenomeLength (l : Int)
  | TskitError
deriving DecidableEq

/-- Modelled from the spec: §3 ancestry segment of the inline variant, a
half-open interval pointing to a mapped node (`segment.rs` is not among the
provided sources); the constructor order `(left, right, mapped)` follows the
call `Segment::new(0, 5, child1.clone())` in the overlapper tests. -/
structure AncestrySegment where
  left : Int
  right : Int
  mapped : Int
deriving DecidableEq

/-- Modelled from the spec: §3 `Node` of the inline variant (`node.rs` is
not among the provided sources): birth time, stable index, alive flag, the
node's ancestry segments, outgoing transmissions keyed by child index, and
parent back-references kept as indices. -/
structure Node where
  index : Int
  birth_time : Int
  alive : Bool
  ancestry : List AncestrySegment
  children : List (Int × List (Int × Int))
  parents : List Int
deriving DecidableEq

/-- Modelled from the spec: §3 lifecycle "nodes are created at birth with a
single self-mapped ancestry segment `[0, L)`"; embeds
`Node::new_alive_with_ancestry_mapping_to_self(index, birth_time, genome_length)`
as used by `Population::new` and `Population::birth`. -/
def Node.new_alive_with_ancestry_mapping_to_self
    (index birth_time genome_length : Int) : Node :=
  { index := index, birth_time := birth_time, alive := true,
    ancestry := [⟨0, genome_length, index⟩], children := [], parents := [] }

/-- Modelled from the spec: §4.5 change heap (`node_heap.rs` is not among
the provided sources).  `Population::new` only needs its default (empty)
value, kept here as the queued node indices. -/
structure NodeHeap where
  queued : List Int
deriving DecidableEq

/-- Modelled from the spec: §4.4 step 2, "for each transmission add
`(left, right)` to `parent.children[b]`": append the interval to the
child's entry, creating the entry if absent. -/
def addChildInterval : List (Int × List (Int × Int)) → Int → Int × Int →
    List (Int × List (Int × Int))
  | [], c, seg => [(c, [seg])]
  | (k, segs) :: rest, c, seg =>
    if k = c then (k, segs ++ [seg]) :: rest
    else (k, segs) :: addChildInterval rest c seg

/-- Modelled from the external `neutral_evolution::TransmittedSegment`:
the fields used by `record_birth` are `parent` (a slot index), `left` and
`right`. -/
structure TransmittedSegment where
  parent : Nat
  left : Int
  right : Int
deriving DecidableEq

/-- Embeds the `Population` struct of `population.rs` lines 10–18. -/
structure Population where
  next_node_id : Int
  genome_length : Int
  replacements : List Nat
  births : List Node
  next_replacement : Nat
  node_heap : NodeHeap
  nodes : List Node
deriving DecidableEq

/-- Embeds `Population::new` (`population.rs` lines 21–47): for positive
genome length, create `popsize` alive nodes with self-mapped ancestry and
set `next_node_id` to `popsize`; otherwise fail with
`InvalidGenomeLength`. -/
def Population.new (popsize genome_length : Int) :
    Except InlineAncestryError Population :=
  if 0 < genome_length then
    .ok { next_node_id := popsize
        , genome_length := genome_length
        , replacements := []
        , births := []
        , next_replacement := 0
        , node_heap := ⟨[]⟩
        , nodes := (List.range popsize.toNat).map (fun (i : Nat) =>
            Node.new_alive_with_ancestry_mapping_to_self (i : Int) 0 genome_length) }
  else .error (.InvalidGenomeLength genome_length)

/-- Embeds `Population::birth` (`population.rs` lines 49–54): assert the
birth time is nonnegative, hand out the next node id, and bump the
counter. -/
def Population.birth (birth_time : Int) (p : Population) :
    Except PanicReason (Node × Population) :=
  if birth_time < 0 then .error .assertionFailed
  else .ok (Node.new_alive_with_ancestry_mapping_to_self p.next_node_id birth_time
              p.genome_length,
            { p with next_node_id := p.next_node_id + 1 })

/-- Embeds `Population::record_birth` (`population.rs` lines 109–134): the
leading `assert!(!breakpoints.is_empty())` panic, the birth of the new
node, and per transmission the parent lookup (`get_mut(..).unwrap()`), the
child-segment registration and the parent back-reference.
`Node::add_child_segment` and `Node::add_parent` live in the missing
`node.rs`; modelled from the spec §4.4 step 2 as always-successful
updates. -/
def Population.record_birth (birth_time _final_timepoint : Int)
    (breakpoints : List TransmittedSegment) (p : Population) :
    Except PanicReason Population :=
  if breakpoints.isEmpty then .error .assertionFailed
  else do
    let (birth, p1) ← p.birth birth_time
    let (p2, birth2) ← breakpoints.foldlM (fun (st : Population × Node) b => do
      match st.1.nodes[b.parent]? with
      | none => .error .unwrapOnNone
      | some parent =>
        let parent1 : Node :=
          { parent with children :=
              addChildInterval parent.children birth.index (b.left, b.right) }
        let pop1 : Population := { st.1 with nodes := st.1.nodes.set b.parent parent1 }
        let birth1 : Node := { st.2 with parents := st.2.parents ++ [parent.index] }
        .ok (pop1, birth1))
      (p1, birth)
    if birth2.parents.isEmpty then .error .assertionFailed
    else .ok { p2 with births := p2.births ++ [birth2] }

/-- Embeds `Population::finish` (`population.rs` lines 170–175): the body
is literally `Ok(())`; nothing is simplified, no node is marked, and the
state is returned unchanged. -/
def Population.finish (_current_time_point : Int) (p : Population) :
    Except PanicReason Population :=
  .ok p

/-- A concrete population whose `births` buffer still holds a pending,
not-yet-simplified birth (node 2, born at time 3, child of node 0). -/
def pendingPop : Population :=
  { next_node_id := 3
  , genome_length := 10
  , replacements := [0]
  , births := [{ index := 2, birth_time := 3, alive := true,
                 ancestry := [⟨0, 10, 2⟩], children := [], parents := [0] }]
  , next_replacement := 0
  , node_heap := ⟨[]⟩
  , nodes := [Node.new_alive_with_ancestry_mapping_to_self 0 0 10,
              Node.new_alive_with_ancestry_mapping_to_self 1 0 10] }

end Inline

namespace TskitEv

/-- Abstraction of the external tskit table collection operations used by
`tskit-evolution/src/lib.rs`.  The spec's §1 places tskit itself out of
scope, so the table type `τ` and its operations are parameters: `fullSort`
and `simplifyTables` may fail (`none` models a `tskit::TskitError` result),
`simplifyTables` returns the simplified tables and the node id map, and
`countSampleFlags`/`setSampleFlag` expose the node flag column. -/
structure TableOps (τ : Type) where
  fullSort : τ → Option τ
  checkIntegrity : τ → Bool
  simplifyTables : τ → List Int → Option (τ × (Int → Int))
  countSampleFlags : τ → Int
  setSampleFlag : τ → Int → τ

/-- Embeds the `EvolvableTableCollection` struct (`lib.rs` lines 6–16) over
an abstract table type.  The unused `idmap` field and the `bookmark` (only
touched by commented-out code) are omitted. -/
structure EvolvableTableCollection (τ : Type) where
  tables : τ
  alive_nodes : List Int
  popsize : Int
  replacements : List Nat
  births : List Int
  simplification_interval : Int
  last_time_simplified : Option Int

/-- Failure channel of the tskit-backed driver: a modelled Rust panic, or a
structured `Err` propagated from a tskit call. -/
inductive RunFailure where
  | panicked (reason : PanicReason)
  | errored
deriving DecidableEq

/-- Embeds `enact_replacements` (`lib.rs` lines 40–49): when births are
pending, assert the replacement and birth lists have equal length and
overwrite each replaced alive slot; always clear `births`. -/
def enactReplacements {τ : Type} (s : EvolvableTableCollection τ) :
    EvolvableTableCollection τ × Option RunFailure :=
  if s.births.isEmpty then ({ s with births := [] }, none)
  else if s.replacements.length ≠ s.births.length then
    (s, some (.panicked .assertionFailed))
  else if s.replacements.all (fun r => decide (r < s.alive_nodes.length)) then
    ({ s with alive_nodes := (s.replacements.zip s.births).foldl
                (fun al rb => al.set rb.1 rb.2) s.alive_nodes
            , births := [] }, none)
  else (s, some (.panicked .indexOutOfBounds))

/-- Embeds `simplify_details` (`lib.rs` lines 51–119): enact replacements,
and when the time point is positive and the pass is forced or the interval
divides, sort, check integrity, simplify through tskit, record
`last_time_simplified`, remap the alive nodes through the returned id map
with the non-null assert, and assert the sample-flag count equals the
population size. -/
def simplifyDetails {τ : Type} (ops : TableOps τ) (cur : Int) (force : Bool)
    (s : EvolvableTableCollection τ) :
    EvolvableTableCollection τ × Option RunFailure :=
  match enactReplacements s with
  | (s1, some f) => (s1, some f)
  | (s1, none) =>
    if 0 < cur ∧ (force ∨ cur % s1.simplification_interval = 0) then
      match ops.fullSort s1.tables with
      | none => (s1, some .errored)
      | some t1 =>
        if ops.checkIntegrity t1 then
          match ops.simplifyTables t1 s1.alive_nodes with
          | none => ({ s1 with tables := t1 }, some .errored)
          | some (t2, idmap) =>
            let s2 := { s1 with tables := t2, last_time_simplified := some cur }
            let alive1 := s2.alive_nodes.map idmap
            if alive1.any (fun a => decide (a = -1)) then
              ({ s2 with alive_nodes := alive1 }, some (.panicked .assertionFailed))
            else if ops.countSampleFlags t2 = s2.popsize then
              ({ s2 with alive_nodes := alive1 }, none)
            else ({ s2 with alive_nodes := alive1 }, some (.panicked .assertionFailed))
        else ({ s1 with tables := t1 }, some .errored)
    else (s1, none)

/-- Embeds `EvolvableTableCollection::finish` (`lib.rs` lines 223–241):
force a simplification unless the last one already happened at
`current_time_point`, then — unless a panic aborted — set the
`IS_SAMPLE` flag of every alive node before returning the earlier result. -/
def finish {τ : Type} (ops : TableOps τ) (cur : Int)
    (s : EvolvableTableCollection τ) :
    EvolvableTableCollection τ × Option RunFailure :=
  let (s1, f) :=
    match s.last_time_simplified with
    | some x => if x ≠ cur then simplifyDetails ops cur true s else (s, none)
    | none => simplifyDetails ops cur true s
  match f with
  | some (.panicked r) => (s1, some (.panicked r))
  | f1 => ({ s1 with tables := s1.alive_nodes.foldl ops.setSampleFlag s1.tables }, f1)

end TskitEv

namespace Inline

/-- The overlapper state reached after the first emission on `loopInput`;
`AncestryOverlapper.next` maps this state to an emission together with this
very state again, so the iterator never terminates. -/
def loopState : AncestryOverlapper :=
  { segments := [⟨0, 10, ⟨1, 1⟩, ⟨1, 1⟩⟩, ⟨2, 3, ⟨2, 1⟩, ⟨2, 1⟩⟩, sentinelOverlap]
  , overlaps := [⟨0, 10, ⟨1, 1⟩, ⟨1, 1⟩⟩]
  , j := 1
  , n := 2
  , right := 3 }

/-- A two-node population with genome length 10, as built by
`Population::new(2, 10)`. -/
def twoNodePop : Population :=
  { next_node_id := 2
  , genome_length := 10
  , replacements := []
  , births := []
  , next_replacement := 0
  , node_heap := ⟨[]⟩
  , nodes := [Node.new_alive_with_ancestry_mapping_to_self 0 0 10,
              Node.new_alive_with_ancestry_mapping_to_self 1 0 10] }

end Inline

namespace Prototype

/-- The pointwise remapping `new = |old − next| − 1` applied to assigned
entries, leaving unassigned entries untouched; `remapIdmap` computes
exactly this map whenever every assigned entry is below `next`. -/
def remapFlip (next v : Int) : Int :=
  if 0 ≤ v then ((v - next).natAbs : Int) - 1 else v

/-- Invariant of the simplification pass: every idmap entry is `-1`
(unassigned) or a previously handed-out output id, hence below the
`next_output_node_id` counter. -/
def idmapBounded (idmap : List Int) (next : Int) : Prop :=
  ∀ v ∈ idmap, v = -1 ∨ (0 ≤ v ∧ v < next)

end Prototype

namespace Prototype

/-- Sanity check of the embedding against the repository's own
`test_simplification`: on the feb-11 fixture with samples `[4, 5]` the
returned idmap is `[-1, 0, -1, 1, 2, 3]` and every retained edge record's
node id equals its position in the table. -/
theorem feb11_matches_repo_test :
    ∃ out, simplify [4, 5] feb11 = .ok out ∧
      out.1 = [-1, 0, -1, 1, 2, 3] ∧
      out.2.edges.map EdgeRecord.node = [0, 1, 2, 3] :=
  ⟨([-1, 0, -1, 1, 2, 3],
    { genome_length := 100
    , edges :=
      [ ⟨0, 0, [⟨2, 0, 50⟩, ⟨0, 0, 50⟩]⟩
      , ⟨1, 1, [⟨0, 0, 100⟩, ⟨1, 0, 100⟩]⟩
      , ⟨2, 2, []⟩
      , ⟨3, 2, []⟩ ]
    , ancestry :=
      [ ⟨0, [⟨3, 0, 50⟩, ⟨2, 50, 100⟩]⟩
      , ⟨1, [⟨2, 0, 100⟩]⟩
      , ⟨2, [⟨1, 0, 100⟩]⟩
      , ⟨3, [⟨0, 0, 100⟩]⟩ ]}),
   rfl, rfl, rfl⟩

/-- C4: on an input meeting every stated precondition of the batch driver
(records sorted past-to-present, valid distinct samples) in which sample
node 0 is also a parent, `simplify` completes and leaves node 0's ancestry
as the two full-genome segments `(1, 0, 10)` and `(0, 0, 10)` — the same
interval twice — so the retained ancestry is neither pairwise disjoint nor
sorted by increasing left. -/
theorem simplify_internal_sample_violates_disjointness :
    simplify [0, 1] internalSampleAncestry =
      .ok ([0, 1],
        { genome_length := 10
        , edges := [⟨0, 0, []⟩, ⟨1, 1, []⟩]
        , ancestry := [⟨0, [⟨1, 0, 10⟩, ⟨0, 0, 10⟩]⟩, ⟨1, [⟨0, 0, 10⟩]⟩] }) ∧
    sortedByLeftAndDisjoint [⟨1, 0, 10⟩, ⟨0, 0, 10⟩] = false ∧
    edgesSortedByTime internalSampleAncestry.edges = true :=
  ⟨rfl, rfl, rfl⟩

/-- C6 counterexample: on records with birth times 3 then 1 the batch
simplifier aborts through the modelled
`panic!("input data must be sorted by birth time from past to present")`;
the crate defines no structured error value, so no `UnorderedInput` result
is returned to the caller. -/
theorem simplify_unsorted_input_panics_concrete :
    simplify [0, 1] unsortedAncestry = .error .notSortedByBirthTime ∧
    edgesSortedByTime unsortedAncestry.edges = false :=
  ⟨rfl, rfl⟩

end Prototype

namespace Inline

/-- C1: evaluated on the repository's own `test_single_overlap` input, the
overlapper emits `(0, 5)` with overlap set `{child 1}` and then `(1, 6)`
with overlap set `{child 2}` — two intervals that are not disjoint (and the
first overlap set omits child 2 although its segment covers `[1, 5)`); on
the input `{[0, 10), [2, 3)}` the iterator reaches a state that `next` maps
to an empty emission `(3, 3)` and the very same state, so it never
terminates; the empty input emits nothing. -/
theorem overlapper_nondisjoint_and_nonterminating :
    (emitAll 4 (AncestryOverlapper.new singleOverlapInput)).map
        (fun e => (e.1, e.2.1)) = [(0, 5), (1, 6)] ∧
    (emitAll 4 (AncestryOverlapper.new singleOverlapInput)).map
        (fun e => e.2.2.map (fun o => o.child.index)) = [[1], [2]] ∧
    disjointIntervals (0, 5) (1, 6) = false ∧
    (AncestryOverlapper.new loopInput).next =
      some ((0, 3, [⟨0, 10, ⟨1, 1⟩, ⟨1, 1⟩⟩]), loopState) ∧
    loopState.next = some ((3, 3, [⟨0, 10, ⟨1, 1⟩, ⟨1, 1⟩⟩]), loopState) ∧
    emitAll 4 (AncestryOverlapper.new []) = [] :=
  ⟨rfl, rfl, rfl, rfl, rfl, rfl⟩

/-- C8: `Population::new` succeeds exactly for positive genome lengths, and
fails with `InvalidGenomeLength` exactly for non-positive ones. -/
theorem population_new_genome_length (popsize L : Int) :
    ((∃ pop, Population.new popsize L = .ok pop) ↔ 0 < L) ∧
    (Population.new popsize L = .error (.InvalidGenomeLength L) ↔ L ≤ 0) := by
  unfold Population.new
  by_cases hL : 0 < L
  · rw [if_pos hL]
    constructor
    · exact ⟨fun _ => hL, fun _ => ⟨_, rfl⟩⟩
    · constructor
      · intro h; cases h
      · intro h; omega
  · rw [if_neg hL]
    constructor
    · constructor
      · intro h; obtain ⟨pop, hp⟩ := h; cases hp
      · intro h; exact absurd h hL
    · constructor
      · intro _; omega
      · intro _; rfl

/-- C9 (amended): `record_birth` called with an empty transmission list
fails through the modelled `assert!(!breakpoints.is_empty())` panic for
every population and every pair of time points; no structured
`EmptyTransmissions` error value is returned. -/
theorem record_birth_empty_transmissions_panics
    (birth_time final_timepoint : Int) (p : Population) :
    Population.record_birth birth_time final_timepoint [] p =
      .error .assertionFailed := rfl

/-- C9 counterexample: at the concrete two-node population, a birth with
zero transmissions aborts with the modelled assertion panic — the result
carries a `PanicReason`, not a structured error of the crate. -/
theorem record_birth_empty_transmissions_concrete :
    Population.record_birth 1 10 [] twoNodePop = .error .assertionFailed := rfl

/-- C7 counterexample: `Population::finish` returns its input unchanged; on
a population whose `births` buffer still holds a pending birth, nothing is
simplified (a simplification pass always drains `births`) and no node is
marked, contradicting the claim for this implementation of the simulator
interface. -/
theorem population_finish_is_noop_concrete :
    Population.finish 7 pendingPop = .ok pendingPop ∧ pendingPop.births ≠ [] :=
  ⟨rfl, by decide⟩

end Inline

namespace Prototype

/-- C5 counterexample: on `oldSampleAncestry` (sorted, valid samples) the
pass completes with remapped idmap `[1, 0, 2, 3]`; node 0 has birth time 0
and node 1 birth time 5, yet node 0's output id 1 is larger than node 1's
output id 0 — the rewritten ids are not in ascending-time order, because
the old sample 0 received its id during the sample pass before the younger
coalescing node 1 received its id during the reverse walk. -/
theorem simplify_remapped_ids_not_ascending_in_time :
    simplify [0, 2, 3] oldSampleAncestry =
      .ok ([1, 0, 2, 3],
        { genome_length := 10
        , edges := [⟨1, 0, []⟩, ⟨0, 5, [⟨0, 0, 10⟩, ⟨1, 0, 10⟩]⟩, ⟨2, 6, []⟩, ⟨3, 6, []⟩]
        , ancestry := [⟨1, [⟨2, 0, 10⟩]⟩, ⟨0, [⟨3, 0, 10⟩]⟩, ⟨2, [⟨1, 0, 10⟩]⟩,
                       ⟨3, [⟨0, 0, 10⟩]⟩] }) ∧
    edgesSortedByTime oldSampleAncestry.edges = true ∧
    oldSampleAncestry.edges.map EdgeRecord.birth_time = [0, 5, 6, 6] ∧
    ¬ (([1, 0, 2, 3] : List Int).getD 0 (-1) < ([1, 0, 2, 3] : List Int).getD 1 (-1)) :=
  ⟨rfl, rfl, rfl, by decide⟩

end Prototype

namespace Inline

/-- C10: for nonnegative `popsize` and positive genome length `L`,
`Population::new` creates exactly `popsize` nodes; node `i` is alive with
index `i`, birth time 0 and the single self-mapped ancestry segment
`[0, L)`; `next_node_id` is `popsize`; and a subsequent `birth` hands out
index `popsize`, which no existing node carries. -/
theorem population_new_initial_cohort (popsize L : Int) (pop : Population)
    (hpop : 0 ≤ popsize) (hL : 0 < L)
    (hnew : Population.new popsize L = .ok pop) :
    pop.nodes.length = popsize.toNat ∧
    (∀ i : Nat, i < popsize.toNat →
      pop.nodes[i]? =
        some (Node.new_alive_with_ancestry_mapping_to_self (i : Int) 0 L)) ∧
    pop.next_node_id = popsize ∧
    (∀ n ∈ pop.nodes, n.alive = true ∧ n.birth_time = 0 ∧
        n.ancestry = [⟨0, L, n.index⟩] ∧ n.index < popsize) ∧
    (∀ t : Int, 0 ≤ t →
      Population.birth t pop =
        .ok (Node.new_alive_with_ancestry_mapping_to_self popsize t L,
             { pop with next_node_id := popsize + 1 }) ∧
      ∀ n ∈ pop.nodes, n.index ≠ popsize) := by
  unfold Population.new at hnew
  rw [if_pos hL] at hnew
  cases hnew
  refine ⟨?_, ?_, rfl, ?_, ?_⟩
  · rw [List.length_map, List.length_range]
  · intro i hi
    rw [List.getElem?_map, List.getElem?_range hi]
    rfl
  · intro n hn
    rw [List.mem_map] at hn
    obtain ⟨i, hi, rfl⟩ := hn
    rw [List.mem_range] at hi
    refine ⟨rfl, rfl, rfl, ?_⟩
    show (i : Int) < popsize
    omega
  · intro t ht
    constructor
    · unfold Population.birth
      rw [if_neg (by omega)]
    · intro n hn
      rw [List.mem_map] at hn
      obtain ⟨i, hi, rfl⟩ := hn
      rw [List.mem_range] at hi
      show (i : Int) ≠ popsize
      omega

/-- Witness for `population_new_initial_cohort` at `popsize = 3`,
`L = 7`. -/
theorem population_new_initial_cohort_witness :
    (0 : Int) ≤ 3 ∧ (0 : Int) < 7 ∧
    ({ next_node_id := 3, genome_length := 7, replacements := [], births := [],
       next_replacement := 0, node_heap := ⟨[]⟩,
       nodes := [⟨0, 0, true, [⟨0, 7, 0⟩], [], []⟩,
                 ⟨1, 0, true, [⟨0, 7, 1⟩], [], []⟩,
                 ⟨2, 0, true, [⟨0, 7, 2⟩], [], []⟩] } : Population).nodes.length =
      (3 : Int).toNat :=
  ⟨by decide, by decide,
   (population_new_initial_cohort 3 7 _ (by decide) (by decide) rfl).1⟩

end Inline

namespace TskitEv

/-- C7 (amended): for the tskit-backed implementation, when a
simplification has not already been performed at `current_time_point`
(and the tskit calls succeed), `finish` forces one — recording
`last_time_simplified = current_time_point` and remapping the alive
nodes — and then flags every alive node as a sample; the inline
`Population::finish`, by contrast, returns its state unchanged. -/
theorem finish_forces_simplify_and_marks_samples {τ : Type} (ops : TableOps τ)
    (cur : Int) (s : EvolvableTableCollection τ) (t1 t2 : τ) (idmap : Int → Int)
    (hcur : 0 < cur)
    (hnot : s.last_time_simplified ≠ some cur)
    (hbirths : s.births = [])
    (hsort : ops.fullSort s.tables = some t1)
    (hchk : ops.checkIntegrity t1 = true)
    (hsimp : ops.simplifyTables t1 s.alive_nodes = some (t2, idmap))
    (hnull : (s.alive_nodes.map idmap).any (fun a => decide (a = -1)) = false)
    (hcount : ops.countSampleFlags t2 = s.popsize) :
    finish ops cur s =
      ({ tables := (s.alive_nodes.map idmap).foldl ops.setSampleFlag t2
        , alive_nodes := s.alive_nodes.map idmap
        , popsize := s.popsize
        , replacements := s.replacements
        , births := []
        , simplification_interval := s.simplification_interval
        , last_time_simplified := some cur }, none) ∧
    (∀ (t : Int) (p : Inline.Population), Inline.Population.finish t p = .ok p) := by
  constructor
  · obtain ⟨tb, al, ps, rp, bs, si, lt⟩ := s
    simp only at hbirths hsort hsimp hnull hcount hnot
    subst hbirths
    have hdet : simplifyDetails ops cur true
        ⟨tb, al, ps, rp, [], si, lt⟩ =
        ({ tables := t2, alive_nodes := al.map idmap, popsize := ps,
           replacements := rp, births := [], simplification_interval := si,
           last_time_simplified := some cur }, none) := by
      unfold simplifyDetails enactReplacements
      simp only [List.isEmpty_nil, if_true]
      rw [if_pos ⟨hcur, Or.inl trivial⟩]
      rw [hsort]
      simp only [hchk, if_true]
      rw [hsimp]
      simp only [hnull, Bool.false_eq_true, if_false, hcount, if_true]
    unfold finish
    cases lt with
    | none =>
      simp only [hdet]
    | some x =>
      have hx : x ≠ cur := fun h => hnot (by rw [h])
      simp only [if_pos hx, hdet]
  · intro t p
    rfl

/-- Witness for `finish_forces_simplify_and_marks_samples`: tables are
plain integers, every table operation succeeds, one alive node `5`,
population size 1, current time 3, no simplification performed yet. -/
theorem finish_forces_simplify_witness :
    (0 : Int) < 3 ∧
    finish (τ := Int)
      ⟨fun t => some t, fun _ => true, fun t _ => some (t, fun i => i),
       fun _ => 1, fun t i => t + i⟩ 3
      ⟨0, [5], 1, [], [], 4, none⟩ =
      ({ tables := 5, alive_nodes := [5], popsize := 1, replacements := [],
         births := [], simplification_interval := 4,
         last_time_simplified := some 3 }, none) :=
  ⟨by decide,
   ((finish_forces_simplify_and_marks_samples
      ⟨fun t => some t, fun _ => true, fun t _ => some (t, fun i => i),
       fun _ => 1, fun t i => t + i⟩ 3
      ⟨0, [5], 1, [], [], 4, none⟩ 0 0 (fun i => i)
      (by decide) (by simp) rfl rfl rfl rfl rfl rfl).1).trans rfl⟩

end TskitEv

namespace Prototype

/-- Reversing a nonempty list exposes its last element first. -/
theorem reverse_eq_getLast_cons (q : List Segment) (hq : q ≠ []) :
    q.reverse = q.getLast hq :: q.dropLast.reverse := by
  conv_lhs => rw [← List.dropLast_append_getLast hq]
  rw [List.reverse_append]
  rfl

/-- The inner pop loop of the sweep always drains the whole queue: the
guard compares the queue's FIRST element against `l`, but `Vec::pop`
removes the LAST element, so the first element — whose `left` is `l` by
construction — remains in place until it is itself the last one popped.
The drained overlaps are the queue in reverse order and `r` is lowered to
the minimum of all queued `right` coordinates. -/
theorem drainQueue_drains_aux :
    ∀ (n : Nat) (q : List Segment) (ov : List Segment) (r : Int) (hq : q ≠ []),
      q.length = n →
      drainQueue q.length ((q.head hq).left) q ov r =
        ([], ov ++ q.reverse, q.reverse.foldl (fun a y => min a y.right) r) := by
  intro n
  induction n with
  | zero => intro q ov r hq hn; cases q with
    | nil => exact absurd rfl hq
    | cons x xs => simp at hn
  | succ n ih =>
    intro q ov r hq hn
    cases q with
    | nil => exact absurd rfl hq
    | cons x xs =>
      cases xs with
      | nil =>
        simp only [drainQueue, List.head_cons, if_pos rfl]
        rfl
      | cons y ys =>
        have hne : (x :: y :: ys) ≠ [] := by simp
        have hlen : (x :: (y :: ys).dropLast).length = n := by
          simpa using hn
        rw [show (x :: y :: ys).length = n + 1 from hn]
        simp only [drainQueue, List.head_cons, if_pos rfl]
        have hdl : (x :: y :: ys).dropLast = x :: (y :: ys).dropLast := rfl
        have ihx := ih (x :: (y :: ys).dropLast)
          (ov ++ [(x :: y :: ys).getLast hne])
          (min r ((x :: y :: ys).getLast hne).right) (by simp) hlen
        rw [List.head_cons] at ihx
        rw [hdl, ← hlen, ihx]
        rw [reverse_eq_getLast_cons (x :: y :: ys) hne]
        rw [hdl]
        simp [List.append_assoc]

/-- Instantiation of `drainQueue_drains_aux` at the queue's own length. -/
theorem drainQueue_drains (q : List Segment) (ov : List Segment) (r : Int)
    (hq : q ≠ []) :
    drainQueue q.length ((q.head hq).left) q ov r =
      ([], ov ++ q.reverse, q.reverse.foldl (fun a y => min a y.right) r) :=
  drainQueue_drains_aux q.length q ov r hq rfl

end Prototype

namespace Prototype

/-- Reduction of `Except` bind on a success value. -/
theorem except_ok_bind {ε α β : Type} (a : α) (f : α → Except ε β) :
    (Except.ok a >>= f : Except ε β) = f a := rfl

/-- Reduction of `Except` bind on an error value. -/
theorem except_error_bind {ε α β : Type} (e : ε) (f : α → Except ε β) :
    ((Except.error e : Except ε α) >>= f : Except ε β) = .error e := rfl

/-- The edge-emission fold of the coalescent branch appends, for every
overlap `o`, the segment `(o.node, l, r)` to the record's descendants,
whatever the re-enqueueing does to the queue. -/
theorem coalesceFold_desc (l r : Int) :
    ∀ (ov d q : List Segment) (out : List Segment × List Segment),
      (ov.foldlM (emitEdges l r) (d, q) :
        Except PanicReason (List Segment × List Segment)) = .ok out →
      out.1 = d ++ ov.map (fun o => Segment.mk o.node l r) := by
  intro ov
  induction ov with
  | nil =>
    intro d q out h
    simp only [List.foldlM_nil] at h
    cases h
    simp
  | cons o rest ih =>
    intro d q out h
    simp only [List.foldlM_cons] at h
    rw [show emitEdges l r (d, q) o = (do
        if r < o.right then
          let q3 ← enqueue q { o with left := r }
          .ok (d ++ [Segment.mk o.node l r], q3)
        else .ok (d ++ [Segment.mk o.node l r], q) :
          Except PanicReason (List Segment × List Segment)) from rfl] at h
    by_cases hro : r < o.right
    · rw [if_pos hro] at h
      cases henq : enqueue q { o with left := r } with
      | error e =>
        rw [henq] at h
        exact absurd h (by simp [Bind.bind, Except.bind])
      | ok q3 =>
        rw [henq] at h
        have hx := ih _ _ _ h
        simpa [List.append_assoc] using hx
    · rw [if_neg hro] at h
      have hx := ih _ _ _ h
      simpa [List.append_assoc] using hx

end Prototype

namespace Prototype

/-- C2: one iteration of the sweep, on the interval it produces (`l` is the
queue head's `left`, the overlap set is the drained queue, and `r` is the
genome length lowered to the minimum queued `right`).  With a single
overlap the kernel appends the unary ancestry segment
`(overlaps[0].node, l, r)` to the parent's ancestry and touches neither the
record's descendants nor the id state; with two or more overlaps it
allocates the parent's output id at most once per invocation (only when
`output_node` is still `-1`, incrementing `next_output_node_id` and
recording the id in `idmap`), appends the ancestry segment
`(output_id, l, r)`, and pushes an edge `(o.node, l, r)` into the record's
descendants for every overlap `o`. -/
theorem sweep_interval_actions (L recNode : Int) (st : SweepState)
    (q0 : Segment) (qrest : List Segment) (row : AncestryRecord)
    (l r : Int) (ov : List Segment)
    (hq : st.queue = q0 :: qrest)
    (hrow : st.rows[recNode.toNat]? = some row)
    (hrn : 0 ≤ recNode)
    (hidm : recNode.toNat < st.idmap.length)
    (hL : ∀ s ∈ st.queue, s.right ≤ L)
    (hl : l = q0.left)
    (hov : ov = (q0 :: qrest).reverse)
    (hr : r = (q0 :: qrest).reverse.foldl (fun a y => min a y.right) L) :
    (∀ x, ov = [x] →
       sweepIterBody L recNode st = .ok
         { st with
           queue := [],
           rows := st.rows.set recNode.toNat
             ({ row with ancestry := row.ancestry ++ [Segment.mk x.node l r] }) }) ∧
    (∀ x y ovtail, ov = x :: y :: ovtail →
       ∀ st', sweepIterBody L recNode st = .ok st' →
         st'.rows = st.rows.set recNode.toNat
           ({ row with ancestry := row.ancestry ++
               [Segment.mk (if st.output_node = -1 then st.next_output_node_id
                            else st.output_node) l r] }) ∧
         st'.descendants = st.descendants ++ ov.map (fun o => Segment.mk o.node l r) ∧
         st'.output_node = (if st.output_node = -1 then st.next_output_node_id
                            else st.output_node) ∧
         st'.idmap = (if st.output_node = -1 then
                        st.idmap.set recNode.toNat st.next_output_node_id
                      else st.idmap) ∧
         st'.next_output_node_id = (if st.output_node = -1 then
                                      st.next_output_node_id + 1
                                    else st.next_output_node_id)) := by
  obtain ⟨qu, rows, desc, outn, idm, nid⟩ := st
  simp only at hq hrow hidm hL ⊢
  subst hq hl hov hr
  have hdrain := drainQueue_drains (q0 :: qrest) [] L (by simp)
  rw [List.head_cons] at hdrain
  constructor
  · intro x hx
    have hqx : q0 :: qrest = [x] := by
      have h2 := congrArg List.reverse hx
      simpa using h2
    cases hqx
    have hxr : min L q0.right = q0.right := min_eq_right (hL q0 (by simp))
    simp only [sweepIterBody, hdrain]
    simp only [List.reverse_cons, List.reverse_nil, List.nil_append,
      List.foldl_cons, List.foldl_nil, List.getLast?_nil, List.isEmpty_nil,
      pushAncestry, hrow]
    rw [if_neg (by omega : ¬ recNode < 0)]
    simp only [hxr, except_ok_bind]
    rfl
  · intro x y ovtail hx st' hst'
    rw [hx] at hdrain
    rw [hx]
    simp only [sweepIterBody, hdrain, List.nil_append, List.getLast?_nil,
      List.isEmpty_cons, Bool.false_eq_true, if_false] at hst'
    generalize hrr : List.foldl (fun a s => min a s.right) L (x :: y :: ovtail) = rr at hst' ⊢
    by_cases hout : outn = -1
    · rw [if_pos hout] at hst'
      rw [if_neg (by omega : ¬ (recNode < 0 ∨ idm.length ≤ recNode.toNat))] at hst'
      rw [except_ok_bind] at hst'
      simp only at hst'
      cases hfold : ((x :: y :: ovtail).foldlM (emitEdges q0.left rr)
          (desc, ([] : List Segment)) :
          Except PanicReason (List Segment × List Segment)) with
      | error e =>
        rw [hfold] at hst'
        exact absurd hst' (by simp [Bind.bind, Except.bind])
      | ok dq =>
        rw [hfold] at hst'
        rw [except_ok_bind] at hst'
        simp only [pushAncestry, hrow] at hst'
        rw [if_neg (by omega : ¬ recNode < 0)] at hst'
        rw [except_ok_bind] at hst'
        cases hst'
        have hdesc := coalesceFold_desc _ _ _ _ _ _ hfold
        simp only [hout, if_pos rfl]
        exact ⟨rfl, by simpa using hdesc, rfl, rfl, rfl⟩
    · rw [if_neg hout] at hst'
      rw [except_ok_bind] at hst'
      simp only at hst'
      cases hfold : ((x :: y :: ovtail).foldlM (emitEdges q0.left rr)
          (desc, ([] : List Segment)) :
          Except PanicReason (List Segment × List Segment)) with
      | error e =>
        rw [hfold] at hst'
        exact absurd hst' (by simp [Bind.bind, Except.bind])
      | ok dq =>
        rw [hfold] at hst'
        rw [except_ok_bind] at hst'
        simp only [pushAncestry, hrow] at hst'
        rw [if_neg (by omega : ¬ recNode < 0)] at hst'
        rw [except_ok_bind] at hst'
        cases hst'
        have hdesc := coalesceFold_desc _ _ _ _ _ _ hfold
        simp only [hout, if_neg hout]
        exact ⟨rfl, by simpa using hdesc, rfl, rfl, rfl⟩

end Prototype

namespace Prototype

/-- Witness for `sweep_interval_actions` on a two-overlap queue: processing
queue `[(7, 0, 5), (8, 0, 9)]` with genome length 10 emits the edges
`(8, 0, 5)` and `(7, 0, 5)` into the record's descendants. -/
theorem sweep_interval_actions_witness :
    (⟨[⟨7, 0, 5⟩, ⟨8, 0, 9⟩], [⟨0, []⟩], [], -1, [-1], 0⟩ :
        SweepState).rows[(0 : Int).toNat]? = some ⟨0, []⟩ ∧
    (⟨[⟨8, 5, 9⟩], [⟨0, [⟨0, 0, 5⟩]⟩], [⟨8, 0, 5⟩, ⟨7, 0, 5⟩], 0, [0], 1⟩ :
        SweepState).descendants =
      (⟨[⟨7, 0, 5⟩, ⟨8, 0, 9⟩], [⟨0, []⟩], [], -1, [-1], 0⟩ :
        SweepState).descendants ++
        ([⟨8, 0, 9⟩, ⟨7, 0, 5⟩] : List Segment).map (fun o => Segment.mk o.node 0 5) :=
  ⟨rfl,
   ((sweep_interval_actions 10 0
      ⟨[⟨7, 0, 5⟩, ⟨8, 0, 9⟩], [⟨0, []⟩], [], -1, [-1], 0⟩
      ⟨7, 0, 5⟩ [⟨8, 0, 9⟩] ⟨0, []⟩ 0 5 [⟨8, 0, 9⟩, ⟨7, 0, 5⟩]
      rfl rfl (by decide) (by decide) (by decide) rfl rfl (by decide)).2
      ⟨8, 0, 9⟩ ⟨7, 0, 5⟩ [] rfl
      ⟨[⟨8, 5, 9⟩], [⟨0, [⟨0, 0, 5⟩]⟩], [⟨8, 0, 5⟩, ⟨7, 0, 5⟩], 0, [0], 1⟩ rfl).2.1⟩

/-- The default of `getD` на an all-false flag vector is `false` at every
index. -/
theorem getD_replicate_false (n k : Nat) :
    (List.replicate n false).getD k false = false := by
  rw [List.getD_eq_getElem?_getD]
  by_cases h : k < n
  · simp [List.getElem?_replicate, h]
  · simp [List.getElem?_replicate, h]

/-- On a duplicate-free sample list whose indices are in range and not yet
flagged, the marking loop succeeds and computes the flag-setting fold. -/
theorem markLoop_ok_of_valid :
    ∀ (samples : List Int) (flags : List Bool),
      samples.Nodup →
      (∀ s ∈ samples, 0 ≤ s ∧ s.toNat < flags.length ∧
        flags.getD s.toNat false = false) →
      markLoop samples flags =
        .ok (samples.foldl (fun f s => f.set s.toNat true) flags) := by
  intro samples
  induction samples with
  | nil => intro flags _ _; rfl
  | cons s rest ih =>
    intro flags hnd hval
    obtain ⟨hs0, hslen, hsfalse⟩ := hval s (by simp)
    simp only [markLoop]
    rw [if_neg (by omega), if_neg (by omega),
      if_neg (by rw [hsfalse]; exact Bool.false_ne_true)]
    rw [List.foldl_cons]
    apply ih (flags.set s.toNat true) hnd.of_cons
    intro t ht
    obtain ⟨ht0, htlen, htfalse⟩ := hval t (by simp [ht])
    have hts : t ≠ s := fun h => ((List.nodup_cons.mp hnd).1 (h ▸ ht))
    have htn : t.toNat ≠ s.toNat := fun h => hts (by omega)
    refine ⟨ht0, by simpa using htlen, ?_⟩
    rw [List.getD_eq_getElem?_getD, List.getElem?_set_ne (fun h => htn h.symm)]
    rw [← List.getD_eq_getElem?_getD]
    exact htfalse

/-- Flag-setting folds agree on permuted sample lists: setting flags is
right-commutative. -/
theorem foldl_set_perm (samples1 samples2 : List Int)
    (h : samples1.Perm samples2) (flags : List Bool) :
    samples1.foldl (fun f s => f.set s.toNat true) flags =
    samples2.foldl (fun f s => f.set s.toNat true) flags := by
  refine @List.Perm.foldl_eq _ _ _ _ _ ⟨?_⟩ h flags
  intro b a1 a2
  by_cases hab : a1.toNat = a2.toNat
  · rw [hab]
  · exact List.set_comm _ _ _ hab

/-- Marking a valid sample list is invariant under permutation. -/
theorem markSamples_perm (n : Nat) (samples1 samples2 : List Int)
    (hperm : samples1.Perm samples2) (hnd : samples1.Nodup)
    (hval : ∀ s ∈ samples1, 0 ≤ s ∧ s.toNat < n) :
    markSamples n samples1 = markSamples n samples2 := by
  unfold markSamples
  have v1 : ∀ s ∈ samples1, 0 ≤ s ∧ s.toNat < (List.replicate n false).length ∧
      (List.replicate n false).getD s.toNat false = false := by
    intro s hs
    obtain ⟨h0, hl⟩ := hval s hs
    exact ⟨h0, by simpa using hl, getD_replicate_false _ _⟩
  have v2 : ∀ s ∈ samples2, 0 ≤ s ∧ s.toNat < (List.replicate n false).length ∧
      (List.replicate n false).getD s.toNat false = false := by
    intro s hs
    obtain ⟨h0, hl⟩ := hval s (hperm.mem_iff.mpr hs)
    exact ⟨h0, by simpa using hl, getD_replicate_false _ _⟩
  rw [markLoop_ok_of_valid samples1 _ hnd v1,
    markLoop_ok_of_valid samples2 _ (hperm.nodup_iff.mp hnd) v2,
    foldl_set_perm _ _ hperm]

/-- C3: the batch simplifier's result — the idmap included — is identical
for any two sample lists that are permutations of each other, because the
sample list is consumed only through its length and the order-insensitive
`is_sample` flag vector; output-id assignment follows the reverse time
walk, never the supplied sample order. -/
theorem simplify_sample_order_independence (samples1 samples2 : List Int)
    (anc : Ancestry) (hperm : samples1.Perm samples2) (hnd : samples1.Nodup)
    (hval : ∀ s ∈ samples1, 0 ≤ s ∧ s.toNat < anc.ancestry.length) :
    simplify samples1 anc = simplify samples2 anc := by
  unfold simplify
  rw [hperm.length_eq, markSamples_perm _ _ _ hperm hnd hval]

/-- Witness for `simplify_sample_order_independence`: the repository's own
`test_simplification_independence_from_sample_order` instance — the feb-11
fixture with samples `[4, 5]` and `[5, 4]`. -/
theorem simplify_sample_order_independence_witness :
    ([4, 5] : List Int).Perm [5, 4] ∧
    simplify [4, 5] feb11 = simplify [5, 4] feb11 :=
  ⟨by decide,
   simplify_sample_order_independence [4, 5] [5, 4] feb11
     (by decide) (by decide) (by decide)⟩

end Prototype

namespace Prototype

/-- A successful `initStep` records the step's birth time as the new last
seen time and preserves the number of ancestry rows. -/
theorem initStep_ok_last (L : Int) (flags : List Bool) (a : EdgeRecord)
    (st st' : InitSt) (h : initStep L flags a st = .ok st') :
    st'.2.2.2 = some a.birth_time ∧ st'.1.length = st.1.length := by
  obtain ⟨rows, idmap, next, last⟩ := st
  simp only [initStep] at h
  split at h
  · cases h
  · split at h
    · cases h
    · split at h
      · split at h
        · cases h
          exact ⟨rfl, by simp⟩
        · cases h
          exact ⟨rfl, by simp⟩
      · cases h

/-- On records sorted past-to-present with valid node indices the reverse
walk of the state setup succeeds, leaving the first record's birth time as
the last seen one and preserving the row count. -/
theorem initLoop_sorted_ok (L : Int) (flags : List Bool) :
    ∀ (edges : List EdgeRecord) (rows : List AncestryRecord)
      (idmap : List Int) (next : Int),
      edgesSortedByTime edges = true →
      (∀ e ∈ edges, 0 ≤ e.node ∧ e.node.toNat < rows.length ∧
        e.node.toNat < flags.length) →
      ∃ st' : InitSt,
        initLoop L flags edges (rows, idmap, next, none) = .ok st' ∧
        st'.1.length = rows.length ∧
        st'.2.2.2 = (match edges with | [] => none | a :: _ => some a.birth_time) := by
  intro edges
  induction edges with
  | nil =>
    intro rows idmap next _ _
    exact ⟨(rows, idmap, next, none), rfl, rfl, rfl⟩
  | cons a rest ih =>
    intro rows idmap next hsort hval
    have hsrest : edgesSortedByTime rest = true := by
      cases rest with
      | nil => rfl
      | cons b t =>
        simp only [edgesSortedByTime, Bool.and_eq_true] at hsort
        exact hsort.2
    obtain ⟨st1, hst1, hlen1, hlast1⟩ :=
      ih rows idmap next hsrest (fun e he => hval e (by simp [he]))
    obtain ⟨ha0, harow, haflag⟩ := hval a (by simp)
    obtain ⟨rows1, idmap1, next1, last1⟩ := st1
    simp only at hlen1 hlast1
    simp only [initLoop, hst1, except_ok_bind]
    have hnolt : ∀ bt, last1 = some bt → ¬ bt < a.birth_time := by
      intro bt hbt
      cases rest with
      | nil =>
        have hn : last1 = none := hlast1
        rw [hn] at hbt
        cases hbt
      | cons b t =>
        have hs : last1 = some b.birth_time := hlast1
        rw [hs] at hbt
        cases hbt
        simp only [edgesSortedByTime, Bool.and_eq_true, decide_eq_true_eq] at hsort
        exact not_lt.mpr hsort.1
    have hstep : ∃ st2 : InitSt,
        initStep L flags a (rows1, idmap1, next1, last1) = .ok st2 ∧
        st2.1.length = rows1.length ∧ st2.2.2.2 = some a.birth_time := by
      unfold initStep
      dsimp only
      cases hrow : rows1[a.node.toNat]? with
      | none => exact absurd (List.getElem?_eq_none_iff.mp hrow) (by omega)
      | some row =>
        cases hflag : flags[a.node.toNat]? with
        | none => exact absurd (List.getElem?_eq_none_iff.mp hflag) (by omega)
        | some issample =>
          cases last1 with
          | none =>
            rw [if_neg (by simp), if_neg (by omega : ¬ a.node < 0)]
            dsimp only
            cases issample with
            | true => exact ⟨_, by rw [if_pos rfl], by simp, rfl⟩
            | false => exact ⟨_, by rw [if_neg (by simp)], by simp, rfl⟩
          | some bt =>
            have hb := hnolt bt rfl
            rw [if_neg (by simp only [decide_eq_true_eq]; exact hb),
              if_neg (by omega : ¬ a.node < 0)]
            dsimp only
            cases issample with
            | true => exact ⟨_, by rw [if_pos rfl], by simp, rfl⟩
            | false => exact ⟨_, by rw [if_neg (by simp)], by simp, rfl⟩
    obtain ⟨st2, hst2, hlen2, hlast2⟩ := hstep
    exact ⟨st2, hst2, by rw [hlen2, hlen1], by rw [hlast2]⟩

/-- On records that are NOT sorted past-to-present (but have valid node
indices) the reverse walk of the state setup aborts with the modelled
birth-time-order panic. -/
theorem initLoop_unsorted_error (L : Int) (flags : List Bool) :
    ∀ (edges : List EdgeRecord) (rows : List AncestryRecord)
      (idmap : List Int) (next : Int),
      edgesSortedByTime edges = false →
      (∀ e ∈ edges, 0 ≤ e.node ∧ e.node.toNat < rows.length ∧
        e.node.toNat < flags.length) →
      initLoop L flags edges (rows, idmap, next, none) =
        .error .notSortedByBirthTime := by
  intro edges
  induction edges with
  | nil => intro rows idmap next hsort _; cases hsort
  | cons a rest ih =>
    intro rows idmap next hsort hval
    cases hsrest : edgesSortedByTime rest with
    | false =>
      have hrest := ih rows idmap next hsrest (fun e he => hval e (by simp [he]))
      simp only [initLoop, hrest, except_error_bind]
    | true =>
      cases rest with
      | nil => cases hsort
      | cons b t =>
        simp only [edgesSortedByTime, hsrest, Bool.and_true] at hsort
        obtain ⟨st1, hst1, hlen1, hlast1⟩ :=
          initLoop_sorted_ok L flags (b :: t) rows idmap next hsrest
            (fun e he => hval e (by simp [he]))
        have hexp : initLoop L flags (a :: b :: t) (rows, idmap, next, none) =
            (do let st1 ← initLoop L flags (b :: t) (rows, idmap, next, none)
                initStep L flags a st1) := rfl
        rw [hexp, hst1, except_ok_bind]
        obtain ⟨rows1, idmap1, next1, last1⟩ := st1
        simp only at hlast1
        unfold initStep
        dsimp only
        rw [hlast1]
        rw [if_pos (by
          simp only [decide_eq_false_iff_not, not_le] at hsort
          simp only [decide_eq_true_eq]
          omega)]

end Prototype

namespace Prototype

/-- Setting flags preserves the length of the flag vector. -/
theorem foldl_set_length (samples : List Int) :
    ∀ flags : List Bool,
      (samples.foldl (fun f s => f.set s.toNat true) flags).length = flags.length := by
  induction samples with
  | nil => intro flags; rfl
  | cons s rest ih =>
    intro flags
    rw [List.foldl_cons, ih]
    simp

/-- C6 (amended): whenever the batch simplifier receives edge records that
are not sorted by birth time from past to present (with otherwise valid
samples and node indices), it aborts through the modelled
`panic!("input data must be sorted by birth time from past to present")`
raised during state setup; the crate has no error type, so the failure is a
panic, not a structured result. -/
theorem simplify_unsorted_input_panics (samples : List Int) (anc : Ancestry)
    (hlen : 1 < samples.length)
    (heq : anc.edges.length = anc.ancestry.length)
    (hnd : samples.Nodup)
    (hval : ∀ s ∈ samples, 0 ≤ s ∧ s.toNat < anc.ancestry.length)
    (hnodes : ∀ e ∈ anc.edges, 0 ≤ e.node ∧ e.node.toNat < anc.ancestry.length)
    (hunsorted : edgesSortedByTime anc.edges = false) :
    simplify samples anc = .error .notSortedByBirthTime := by
  unfold simplify
  rw [if_neg (by omega), if_neg (by omega)]
  have hmk : markSamples anc.ancestry.length samples =
      .ok (samples.foldl (fun f s => f.set s.toNat true)
            (List.replicate anc.ancestry.length false)) := by
    unfold markSamples
    apply markLoop_ok_of_valid samples _ hnd
    intro s hs
    obtain ⟨h0, hl⟩ := hval s hs
    exact ⟨h0, by simpa using hl, getD_replicate_false _ _⟩
  rw [hmk]
  simp only [except_ok_bind]
  have herr := initLoop_unsorted_error anc.genome_length
    (samples.foldl (fun f s => f.set s.toNat true)
      (List.replicate anc.ancestry.length false))
    anc.edges anc.ancestry (List.replicate anc.ancestry.length (-1 : Int)) 0
    hunsorted
    (by
      intro e he
      obtain ⟨h0, hl⟩ := hnodes e he
      refine ⟨h0, hl, ?_⟩
      rw [foldl_set_length]
      simpa using hl)
  rw [herr]
  simp only [except_error_bind]

/-- Witness for `simplify_unsorted_input_panics` at the concrete unsorted
fixture. -/
theorem simplify_unsorted_input_panics_witness :
    edgesSortedByTime unsortedAncestry.edges = false ∧
    simplify [0, 1] unsortedAncestry = .error .notSortedByBirthTime :=
  ⟨rfl,
   simplify_unsorted_input_panics [0, 1] unsortedAncestry
     (by decide) (by decide) (by decide) (by decide) (by decide) rfl⟩

end Prototype

namespace Prototype

/-- A successful `initStep` keeps every idmap entry either unassigned or a
previously issued output id below the counter. -/
theorem initStep_idinv (L : Int) (flags : List Bool) (a : EdgeRecord)
    (st st' : InitSt) (h : initStep L flags a st = .ok st')
    (hinv : 0 ≤ st.2.2.1 ∧ idmapBounded st.2.1 st.2.2.1) :
    0 ≤ st'.2.2.1 ∧ idmapBounded st'.2.1 st'.2.2.1 := by
  obtain ⟨rows, idmap, next, last⟩ := st
  obtain ⟨hn0, hbd⟩ := hinv
  simp only at hn0 hbd ⊢
  simp only [initStep] at h
  split at h
  · cases h
  · split at h
    · cases h
    · split at h
      · split at h
        · cases h
          dsimp only
          refine ⟨by omega, ?_⟩
          intro v hv
          rcases List.mem_or_eq_of_mem_set hv with hmem | hset
          · rcases hbd v hmem with h1 | h2
            · exact Or.inl h1
            · exact Or.inr ⟨h2.1, by omega⟩
          · subst hset
            exact Or.inr ⟨hn0, by omega⟩
        · cases h
          exact ⟨hn0, hbd⟩
      · cases h

/-- The id invariant is preserved along the whole reverse init walk. -/
theorem initLoop_idinv (L : Int) (flags : List Bool) :
    ∀ (edges : List EdgeRecord) (st st' : InitSt),
      initLoop L flags edges st = .ok st' →
      0 ≤ st.2.2.1 ∧ idmapBounded st.2.1 st.2.2.1 →
      0 ≤ st'.2.2.1 ∧ idmapBounded st'.2.1 st'.2.2.1 := by
  intro edges
  induction edges with
  | nil => intro st st' h hinv; cases h; exact hinv
  | cons a rest ih =>
    intro st st' h hinv
    simp only [initLoop] at h
    cases h1 : initLoop L flags rest st with
    | error e => rw [h1] at h; exact absurd h (by simp [Bind.bind, Except.bind])
    | ok st1 =>
      rw [h1] at h
      exact initStep_idinv L flags a st1 st' h (ih st st1 h1 hinv)

/-- One sweep iteration keeps every idmap entry either unassigned or a
previously issued output id below the counter. -/
theorem sweepIterBody_idinv (L recNode : Int) (st st' : SweepState)
    (h : sweepIterBody L recNode st = .ok st')
    (hinv : 0 ≤ st.next_output_node_id ∧ idmapBounded st.idmap st.next_output_node_id) :
    0 ≤ st'.next_output_node_id ∧ idmapBounded st'.idmap st'.next_output_node_id := by
  obtain ⟨qu, rows, desc, outn, idm, nid⟩ := st
  obtain ⟨hn0, hbd⟩ := hinv
  simp only at hn0 hbd ⊢
  cases qu with
  | nil =>
    cases h
    exact ⟨hn0, hbd⟩
  | cons q0 qrest =>
    unfold sweepIterBody at h
    dsimp only at h
    rcases hdr : drainQueue (q0 :: qrest).length q0.left (q0 :: qrest) [] L with
      ⟨q1, overlaps, r1⟩
    rw [hdr] at h
    dsimp only at h
    cases hlast : q1.getLast? with
    | none =>
      rw [hlast] at h
      dsimp only at h
      cases overlaps with
      | nil => cases h
      | cons x ovrest =>
        cases ovrest with
        | nil =>
          dsimp only at h
          simp only [List.isEmpty_nil, eq_self_iff_true, if_true] at h
          cases hpush : pushAncestry rows recNode x with
          | error e => rw [hpush] at h; exact absurd h (by simp [Bind.bind, Except.bind])
          | ok rows2 =>
            rw [hpush] at h
            rw [except_ok_bind] at h
            cases h
            exact ⟨hn0, hbd⟩
        | cons y ovtail =>
          dsimp only at h
          rw [if_neg (by simp)] at h
          by_cases hout : outn = -1
          · rw [if_pos hout] at h
            by_cases hg : (recNode < 0 ∨ idm.length ≤ recNode.toNat)
            · rw [if_pos hg] at h
              exact absurd h (by simp [Bind.bind, Except.bind])
            · rw [if_neg hg] at h
              rw [except_ok_bind] at h
              dsimp only at h
              cases hfold : ((x :: y :: ovtail).foldlM (emitEdges q0.left r1)
                  (desc, q1) : Except PanicReason (List Segment × List Segment)) with
              | error e =>
                rw [hfold] at h
                exact absurd h (by simp [Bind.bind, Except.bind])
              | ok dq =>
                rw [hfold] at h
                rw [except_ok_bind] at h
                cases hpush : pushAncestry rows recNode
                    (Segment.mk nid q0.left r1) with
                | error e =>
                  rw [hpush] at h
                  exact absurd h (by simp [Bind.bind, Except.bind])
                | ok rows2 =>
                  rw [hpush] at h
                  rw [except_ok_bind] at h
                  cases h
                  dsimp only
                  refine ⟨by omega, ?_⟩
                  intro v hv
                  rcases List.mem_or_eq_of_mem_set hv with hmem | hset
                  · rcases hbd v hmem with h1 | h2
                    · exact Or.inl h1
                    · exact Or.inr ⟨h2.1, by omega⟩
                  · subst hset
                    exact Or.inr ⟨hn0, by omega⟩
          · rw [if_neg hout] at h
            rw [except_ok_bind] at h
            dsimp only at h
            cases hfold : ((x :: y :: ovtail).foldlM (emitEdges q0.left r1)
                (desc, q1) : Except PanicReason (List Segment × List Segment)) with
            | error e =>
              rw [hfold] at h
              exact absurd h (by simp [Bind.bind, Except.bind])
            | ok dq =>
              rw [hfold] at h
              rw [except_ok_bind] at h
              cases hpush : pushAncestry rows recNode
                  (Segment.mk outn q0.left r1) with
              | error e =>
                rw [hpush] at h
                exact absurd h (by simp [Bind.bind, Except.bind])
              | ok rows2 =>
                rw [hpush] at h
                rw [except_ok_bind] at h
                cases h
                exact ⟨hn0, hbd⟩
    | some xlast =>
      rw [hlast] at h
      dsimp only at h
      cases overlaps with
      | nil => cases h
      | cons x ovrest =>
        cases ovrest with
        | nil =>
          dsimp only at h
          simp only [List.isEmpty_nil, eq_self_iff_true, if_true] at h
          cases henq : enqueue q1 { x with left := xlast.left } with
          | error e => rw [henq] at h; exact absurd h (by simp [Bind.bind, Except.bind])
          | ok q2 =>
            rw [henq] at h
            rw [except_ok_bind] at h
            cases hpush : pushAncestry rows recNode
                (Segment.mk x.node xlast.left x.right) with
            | error e => rw [hpush] at h; exact absurd h (by simp [Bind.bind, Except.bind])
            | ok rows2 =>
              rw [hpush] at h
              cases h
              exact ⟨hn0, hbd⟩
        | cons y ovtail =>
          dsimp only at h
          rw [if_neg (by simp)] at h
          by_cases hout : outn = -1
          · rw [if_pos hout] at h
            by_cases hg : (recNode < 0 ∨ idm.length ≤ recNode.toNat)
            · rw [if_pos hg] at h
              exact absurd h (by simp [Bind.bind, Except.bind])
            · rw [if_neg hg] at h
              rw [except_ok_bind] at h
              dsimp only at h
              cases hfold : ((x :: y :: ovtail).foldlM (emitEdges q0.left (min r1 xlast.left))
                  (desc, q1) : Except PanicReason (List Segment × List Segment)) with
              | error e =>
                rw [hfold] at h
                exact absurd h (by simp [Bind.bind, Except.bind])
              | ok dq =>
                rw [hfold] at h
                rw [except_ok_bind] at h
                cases hpush : pushAncestry rows recNode
                    (Segment.mk nid q0.left (min r1 xlast.left)) with
                | error e =>
                  rw [hpush] at h
                  exact absurd h (by simp [Bind.bind, Except.bind])
                | ok rows2 =>
                  rw [hpush] at h
                  rw [except_ok_bind] at h
                  cases h
                  dsimp only
                  refine ⟨by omega, ?_⟩
                  intro v hv
                  rcases List.mem_or_eq_of_mem_set hv with hmem | hset
                  · rcases hbd v hmem with h1 | h2
                    · exact Or.inl h1
                    · exact Or.inr ⟨h2.1, by omega⟩
                  · subst hset
                    exact Or.inr ⟨hn0, by omega⟩
          · rw [if_neg hout] at h
            rw [except_ok_bind] at h
            dsimp only at h
            cases hfold : ((x :: y :: ovtail).foldlM (emitEdges q0.left (min r1 xlast.left))
                (desc, q1) : Except PanicReason (List Segment × List Segment)) with
            | error e =>
              rw [hfold] at h
              exact absurd h (by simp [Bind.bind, Except.bind])
            | ok dq =>
              rw [hfold] at h
              rw [except_ok_bind] at h
              cases hpush : pushAncestry rows recNode
                  (Segment.mk outn q0.left (min r1 xlast.left)) with
              | error e =>
                rw [hpush] at h
                exact absurd h (by simp [Bind.bind, Except.bind])
              | ok rows2 =>
                rw [hpush] at h
                rw [except_ok_bind] at h
                cases h
                exact ⟨hn0, hbd⟩

end Prototype

namespace Prototype

/-- The id invariant is preserved by the whole sweep loop. -/
theorem sweepLoop_idinv (L recNode : Int) :
    ∀ (fuel : Nat) (st st' : SweepState),
      sweepLoop fuel L recNode st = .ok st' →
      0 ≤ st.next_output_node_id ∧ idmapBounded st.idmap st.next_output_node_id →
      0 ≤ st'.next_output_node_id ∧ idmapBounded st'.idmap st'.next_output_node_id := by
  intro fuel
  induction fuel with
  | zero =>
    intro st st' h hinv
    simp only [sweepLoop] at h
    split at h
    · cases h; exact hinv
    · cases h
  | succ fuel ih =>
    intro st st' h hinv
    simp only [sweepLoop] at h
    split at h
    · cases h; exact hinv
    · cases h1 : sweepIterBody L recNode st with
      | error e => rw [h1] at h; exact absurd h (by simp [Bind.bind, Except.bind])
      | ok st1 =>
        rw [h1] at h
        exact ih st1 st' h (sweepIterBody_idinv L recNode st st1 h1 hinv)

/-- The id invariant is preserved by processing one edge record. -/
theorem processRecord_idinv (L : Int) (rec : EdgeRecord)
    (rows : List AncestryRecord) (idmap : List Int) (next : Int)
    (out : EdgeRecord × List AncestryRecord × List Int × Int)
    (h : processRecord L rec rows idmap next = .ok out)
    (hinv : 0 ≤ next ∧ idmapBounded idmap next) :
    0 ≤ out.2.2.2 ∧ idmapBounded out.2.2.1 out.2.2.2 := by
  unfold processRecord at h
  cases h1 : gatherQueue rows rec.descendants with
  | error e => rw [h1] at h; exact absurd h (by simp [Bind.bind, Except.bind])
  | ok q =>
    rw [h1] at h
    rw [except_ok_bind] at h
    cases h2 : sweepLoop (q.length + 2) L rec.node
        { queue := q, rows := rows, descendants := [], output_node := -1,
          idmap := idmap, next_output_node_id := next } with
    | error e => rw [h2] at h; exact absurd h (by simp [Bind.bind, Except.bind])
    | ok stf =>
      rw [h2] at h
      rw [except_ok_bind] at h
      cases h
      exact sweepLoop_idinv L rec.node (q.length + 2) _ stf h2 ⟨hinv.1, hinv.2⟩

/-- The id invariant is preserved along the whole main loop. -/
theorem mainLoop_idinv (L : Int) :
    ∀ (edges : List EdgeRecord) (rows : List AncestryRecord)
      (idmap : List Int) (next : Int)
      (out : List EdgeRecord × List AncestryRecord × List Int × Int),
      mainLoop L edges rows idmap next = .ok out →
      0 ≤ next ∧ idmapBounded idmap next →
      0 ≤ out.2.2.2 ∧ idmapBounded out.2.2.1 out.2.2.2 := by
  intro edges
  induction edges with
  | nil =>
    intro rows idmap next out h hinv
    cases h
    exact hinv
  | cons rec rest ih =>
    intro rows idmap next out h hinv
    simp only [mainLoop] at h
    cases h1 : mainLoop L rest rows idmap next with
    | error e => rw [h1] at h; exact absurd h (by simp [Bind.bind, Except.bind])
    | ok out1 =>
      rw [h1] at h
      rw [except_ok_bind] at h
      have hinv1 := ih rows idmap next out1 h1 hinv
      obtain ⟨rest1, rows1, idmap1, next1⟩ := out1
      cases h2 : processRecord L rec rows1 idmap1 next1 with
      | error e => rw [h2] at h; exact absurd h (by simp [Bind.bind, Except.bind])
      | ok out2 =>
        rw [h2] at h
        rw [except_ok_bind] at h
        cases h
        exact processRecord_idinv L rec rows1 idmap1 next1 out2 h2 hinv1

/-- Pointwise behaviour of the remap step on an in-range entry. -/
theorem remapEntry_eq (next v : Int) (h : v = -1 ∨ (0 ≤ v ∧ v < next)) :
    remapEntry next v = .ok (remapFlip next v) := by
  rcases h with h1 | h2
  · subst h1
    rfl
  · unfold remapEntry remapFlip
    rw [if_pos h2.1, if_pos h2.1, if_pos (by omega : (0 : Int) ≤ ((v - next).natAbs : Int) - 1)]

/-- Under the id invariant the remap loop succeeds and computes exactly the
pointwise map `new = |old − next| − 1` on assigned entries. -/
theorem remapIdmap_ok_of_bounded (next : Int) :
    ∀ idmap : List Int,
      idmapBounded idmap next →
      remapIdmap next idmap = .ok (idmap.map (remapFlip next)) := by
  intro idmap
  induction idmap with
  | nil => intro _; rfl
  | cons v rest ih =>
    intro hbd
    unfold remapIdmap at ih ⊢
    rw [List.mapM_cons, remapEntry_eq next v (hbd v (by simp)), except_ok_bind,
      ih (fun w hw => hbd w (by simp [hw])), except_ok_bind]
    rfl

end Prototype

namespace Prototype

/-- C5 (amended): at the end of a batch simplification pass (state setup
and main loop both completed), the remap loop succeeds and rewrites every
assigned idmap entry (`≥ 0` before remapping) to `|old − next| − 1`; every
rewritten entry is nonnegative; unassigned entries stay `-1`; and the
rewrite reverses the assignment order — entries assigned later (larger
pre-remap id) receive smaller post-remap ids.  Ascending-time order of the
rewritten ids holds only when the ids were assigned in descending time
order, which the sample pass does not guarantee (see the counterexample). -/
theorem simplify_remap_formula_nonneg_reverses (samples : List Int)
    (anc : Ancestry) (flags : List Bool) (rows0 : List AncestryRecord)
    (idmap0 : List Int) (next0 : Int) (last0 : Option Int)
    (edges1 : List EdgeRecord) (rows1 : List AncestryRecord)
    (idmap1 : List Int) (next1 : Int)
    (hm : markSamples anc.ancestry.length samples = .ok flags)
    (hi : initLoop anc.genome_length flags anc.edges
        (anc.ancestry, List.replicate anc.ancestry.length (-1 : Int), 0, none) =
        .ok (rows0, idmap0, next0, last0))
    (hmain : mainLoop anc.genome_length anc.edges rows0 idmap0 next0 =
        .ok (edges1, rows1, idmap1, next1)) :
    remapIdmap next1 idmap1 = .ok (idmap1.map (remapFlip next1)) ∧
    (∀ v ∈ idmap1, 0 ≤ v →
      remapFlip next1 v = ((v - next1).natAbs : Int) - 1 ∧ 0 ≤ remapFlip next1 v) ∧
    (∀ v ∈ idmap1, v = -1 → remapFlip next1 v = v) ∧
    (∀ v w, v ∈ idmap1 → w ∈ idmap1 → 0 ≤ v → 0 ≤ w → v < w →
      remapFlip next1 w < remapFlip next1 v) := by
  have hinv0 : (0 : Int) ≤ 0 ∧
      idmapBounded (List.replicate anc.ancestry.length (-1 : Int)) 0 := by
    refine ⟨le_refl 0, ?_⟩
    intro v hv
    exact Or.inl (List.eq_of_mem_replicate hv)
  have hinv1 := initLoop_idinv anc.genome_length flags anc.edges _ _ hi hinv0
  have hinv2 := mainLoop_idinv anc.genome_length anc.edges rows0 idmap0 next0 _
    hmain ⟨hinv1.1, hinv1.2⟩
  obtain ⟨hn1, hbd1⟩ := hinv2
  simp only at hn1 hbd1
  have hflipbound : ∀ v ∈ idmap1, 0 ≤ v → v < next1 := by
    intro v hv h0
    rcases hbd1 v hv with h1 | h2
    · omega
    · exact h2.2
  refine ⟨remapIdmap_ok_of_bounded next1 idmap1 hbd1, ?_, ?_, ?_⟩
  · intro v hv h0
    have hvn := hflipbound v hv h0
    unfold remapFlip
    rw [if_pos h0]
    exact ⟨rfl, by omega⟩
  · intro v _ hv1
    subst hv1
    rfl
  · intro v w hv hw h0v h0w hvw
    have hvn := hflipbound v hv h0v
    have hwn := hflipbound w hw h0w
    unfold remapFlip
    rw [if_pos h0v, if_pos h0w]
    omega

/-- Witness for `simplify_remap_formula_nonneg_reverses` on the
`oldSampleAncestry` run, whose pre-remap idmap is `[2, 3, 1, 0]` with
`next_output_node_id = 4`. -/
theorem simplify_remap_formula_witness :
    remapIdmap 4 [2, 3, 1, 0] = .ok (([2, 3, 1, 0] : List Int).map (remapFlip 4)) ∧
    (∀ v ∈ ([2, 3, 1, 0] : List Int), 0 ≤ v →
      remapFlip 4 v = ((v - 4).natAbs : Int) - 1 ∧ 0 ≤ remapFlip 4 v) ∧
    (∀ v ∈ ([2, 3, 1, 0] : List Int), v = -1 → remapFlip 4 v = v) ∧
    (∀ v w, v ∈ ([2, 3, 1, 0] : List Int) → w ∈ ([2, 3, 1, 0] : List Int) →
      0 ≤ v → 0 ≤ w → v < w → remapFlip 4 w < remapFlip 4 v) :=
  simplify_remap_formula_nonneg_reverses [0, 2, 3] oldSampleAncestry
    [true, false, true, true]
    [⟨0, [⟨2, 0, 10⟩]⟩, ⟨1, []⟩, ⟨2, [⟨1, 0, 10⟩]⟩, ⟨3, [⟨0, 0, 10⟩]⟩]
    [2, -1, 1, 0] 3 (some 0)
    [⟨0, 0, []⟩, ⟨1, 5, [⟨0, 0, 10⟩, ⟨1, 0, 10⟩]⟩, ⟨2, 6, []⟩, ⟨3, 6, []⟩]
    [⟨0, [⟨2, 0, 10⟩]⟩, ⟨1, [⟨3, 0, 10⟩]⟩, ⟨2, [⟨1, 0, 10⟩]⟩, ⟨3, [⟨0, 0, 10⟩]⟩]
    [2, 3, 1, 0] 4 rfl rfl rfl

end Prototype

namespace Inline

/-- Witness for `population_new_genome_length` at `popsize = 2`: length 5
succeeds, length 0 fails with `InvalidGenomeLength`. -/
theorem population_new_genome_length_witness :
    (((∃ pop, Population.new 2 5 = .ok pop) ↔ (0 : Int) < 5) ∧
      (Population.new 2 5 = .error (.InvalidGenomeLength 5) ↔ (5 : Int) ≤ 0)) ∧
    (((∃ pop, Population.new 2 0 = .ok pop) ↔ (0 : Int) < 0) ∧
      (Population.new 2 0 = .error (.InvalidGenomeLength 0) ↔ (0 : Int) ≤ 0)) :=
  ⟨population_new_genome_length 2 5, population_new_genome_length 2 0⟩

end Inline
